import Mathlib

/-!
Verification model of the `resumer` tmux-session manager.

The definitions below are a shallow embedding of the repository's
TypeScript sources (`src/state.ts`, `src/paths.ts`, `src/main.ts`).
JavaScript objects used as string-keyed maps are modelled as association
lists with JS-object update semantics (first occurrence replaced in
place, new keys appended); external collaborators (the tmux server, the
filesystem, the JSON parser, the interactive picker) are passed in as
explicit values or functions.
-/

set_option maxRecDepth 100000

namespace Resumer

/-! ### String-keyed maps (JS object semantics) -/

abbrev AList (α : Type) := List (String × α)

def getA {α : Type} : AList α → String → Option α
  | [], _ => none
  | (k', v) :: rest, k => if k' == k then some v else getA rest k

def setA {α : Type} : AList α → String → α → AList α
  | [], k, v => [(k, v)]
  | (k', v') :: rest, k, v =>
      if k' == k then (k, v) :: rest else (k', v') :: setA rest k v

def delA {α : Type} (m : AList α) (k : String) : AList α :=
  m.filter (fun p => p.1 != k)

/-! ### Data model (`src/types.ts`, fields as used by `src/main.ts`) -/

inductive SessionKind where
  | managed
  | linked
deriving DecidableEq, Repr

structure Project where
  id : String
  path : String
  name : String
  createdAt : String
  lastUsedAt : Option String
deriving DecidableEq, Repr

structure SessionRecord where
  name : String
  projectId : String
  projectPath : String
  createdAt : String
  command : Option String
  kind : SessionKind
  lastAttachedAt : Option String
deriving DecidableEq, Repr

structure StateV1 where
  version : Nat
  projects : AList Project
  sessions : AList SessionRecord
deriving DecidableEq, Repr

/-! ### SHA-1 (Node `createHash("sha1")`) and `computeProjectId` -/

def M32 : Nat := 4294967296

def rotl (n x : Nat) : Nat :=
  (((x <<< n) % M32) ||| (x >>> (32 - n)))

def utf8EncodeChar (c : Char) : List Nat :=
  let n := c.toNat
  if n < 128 then [n]
  else if n < 2048 then
    [192 ||| (n >>> 6), 128 ||| (n &&& 63)]
  else if n < 65536 then
    [224 ||| (n >>> 12), 128 ||| ((n >>> 6) &&& 63), 128 ||| (n &&& 63)]
  else
    [240 ||| (n >>> 18), 128 ||| ((n >>> 12) &&& 63),
     128 ||| ((n >>> 6) &&& 63), 128 ||| (n &&& 63)]

def strUtf8 (s : String) : List Nat :=
  (s.data.map utf8EncodeChar).flatten

def sha1Pad (msg : List Nat) : List Nat :=
  let len := msg.length
  let bitLen := len * 8
  let z := (120 - ((len + 1) % 64)) % 64
  let lenBytes := (List.range 8).map (fun i => (bitLen >>> ((7 - i) * 8)) &&& 255)
  msg ++ [128] ++ List.replicate z 0 ++ lenBytes

def toBlocksAux : Nat → List Nat → List (List Nat)
  | 0, _ => []
  | _, [] => []
  | fuel + 1, bs@(_ :: _) => bs.take 64 :: toBlocksAux fuel (bs.drop 64)

def toBlocks (bs : List Nat) : List (List Nat) :=
  toBlocksAux bs.length bs

def bytesToWords : List Nat → List Nat
  | a :: b :: c :: d :: rest =>
      (a * 16777216 + b * 65536 + c * 256 + d) :: bytesToWords rest
  | _ => []

def extendStep (w : List Nat) : List Nat :=
  let n := w.length
  w ++ [rotl 1 ((w.getD (n - 3) 0) ^^^ (w.getD (n - 8) 0) ^^^
                (w.getD (n - 14) 0) ^^^ (w.getD (n - 16) 0))]

def extendTo80 (w : List Nat) : List Nat :=
  (List.range 64).foldl (fun acc _ => extendStep acc) w

def sha1F (i b c d : Nat) : Nat :=
  if i < 20 then (b &&& c) ||| ((b ^^^ 4294967295) &&& d)
  else if i < 40 then b ^^^ c ^^^ d
  else if i < 60 then (b &&& c) ||| (b &&& d) ||| (c &&& d)
  else b ^^^ c ^^^ d

def sha1K (i : Nat) : Nat :=
  if i < 20 then 1518500249
  else if i < 40 then 1859775393
  else if i < 60 then 2400959708
  else 3395469782

def sha1Compress (h : Nat × Nat × Nat × Nat × Nat) (w80 : List Nat) :
    Nat × Nat × Nat × Nat × Nat :=
  let step := fun (st : Nat × Nat × Nat × Nat × Nat) (i : Nat) =>
    let (a, b, c, d, e) := st
    let t := (rotl 5 a + sha1F i b c d + e + sha1K i + w80.getD i 0) % M32
    (t, a, rotl 30 b, c, d)
  let (a, b, c, d, e) := (List.range 80).foldl step h
  ((h.1 + a) % M32, (h.2.1 + b) % M32, (h.2.2.1 + c) % M32,
   (h.2.2.2.1 + d) % M32, (h.2.2.2.2 + e) % M32)

def hexDigit (n : Nat) : Char :=
  if n < 10 then Char.ofNat (48 + n) else Char.ofNat (87 + n)

def hex8 (x : Nat) : String :=
  String.mk ((List.range 8).map (fun i => hexDigit ((x >>> ((7 - i) * 4)) &&& 15)))

def sha1Hex (msg : List Nat) : String :=
  let h := (toBlocks (sha1Pad msg)).foldl
    (fun h blk => sha1Compress h (extendTo80 (bytesToWords blk)))
    (1732584193, 4023233417, 2562383102, 271733878, 3285377520)
  hex8 h.1 ++ hex8 h.2.1 ++ hex8 h.2.2.1 ++ hex8 h.2.2.2.1 ++ hex8 h.2.2.2.2

def computeProjectId (projectPath : String) : String :=
  (sha1Hex (strUtf8 projectPath)).take 10

/-! ### Path canonicalization (`src/paths.ts`); the filesystem (existence,
directory-ness, symlink resolution) is an external collaborator passed in
as an `Fs` value. -/

def splitSegs (sep : Char) : List Char → List (List Char)
  | [] => [[]]
  | c :: rest =>
    let r := splitSegs sep rest
    if c == sep then [] :: r
    else
      match r with
      | [] => [[c]]
      | seg :: rest2 => (c :: seg) :: rest2

/-- JS `s.split("/")`. -/
def slashSplit (s : String) : List String :=
  (splitSegs '/' s.data).map (fun cs => String.mk cs)

def charsToLower (s : String) : String :=
  String.mk (s.data.map Char.toLower)

/-- JS `s.trim()`. -/
def jsTrim (s : String) : String :=
  String.mk (((s.data.dropWhile Char.isWhitespace).reverse.dropWhile
    Char.isWhitespace).reverse)

def expandHome (home input : String) : String :=
  if input == "~" then home
  else
    match input.data with
    | '~' :: '/' :: _ => home ++ "/" ++ input.drop 2
    | _ => input

/-- POSIX path normalization as performed by Node's `path.resolve`:
drop empty and `.` segments, let `..` pop the previous segment
(`..` at the root is discarded). -/
def normSegs (segs : List String) : List String :=
  segs.foldl
    (fun acc seg =>
      if seg == "" || seg == "." then acc
      else if seg == ".." then acc.dropLast
      else acc ++ [seg])
    []

/-- Node `path.resolve(cwd, p)` for an absolute `cwd`. -/
def pathResolve (cwd p : String) : String :=
  let joined :=
    (match p.data with
     | '/' :: _ => p
     | _ => cwd ++ "/" ++ p)
  "/" ++ String.intercalate "/" (normSegs (slashSplit joined))

structure Fs where
  pathExists : String → Bool
  isDir : String → Bool
  realpath : String → String

def resolveProjectPath (fs : Fs) (home inputPath cwd : String) :
    Except String String :=
  let expanded := expandHome home inputPath
  let resolved := pathResolve cwd expanded
  if !fs.pathExists resolved then .error ("Path does not exist: " ++ inputPath)
  else if !fs.isDir resolved then .error ("Path is not a directory: " ++ inputPath)
  else .ok (fs.realpath resolved)

/-- JS `path.basename(projectPath) || projectPath`. -/
def projectDisplayName (projectPath : String) : String :=
  let base := (((slashSplit projectPath).filter (fun s => s != "")).getLast?).getD ""
  if base == "" then projectPath else base

/-! ### State helpers (`src/state.ts`) -/

/-- Source: `state.sessions[session.name] = { ...existing, ...session }`; every
call site builds `session` with all `SessionRecord` fields present, so
the spread merge is a plain overwrite of the key. -/
def upsertSession (st : StateV1) (session : SessionRecord) : StateV1 :=
  { st with sessions := setA st.sessions session.name session }

def removeSession (st : StateV1) (tmuxSessionName : String) : StateV1 :=
  { st with sessions := delA st.sessions tmuxSessionName }

def normalizeAndEnsureProject (fs : Fs) (home : String) (st : StateV1)
    (inputPath cwd now : String) : Except String (Project × StateV1) :=
  match resolveProjectPath fs home inputPath cwd with
  | .error e => .error e
  | .ok absPath =>
    let id := computeProjectId absPath
    let name := projectDisplayName absPath
    match getA st.projects id with
    | some existing =>
      let updated : Project :=
        { existing with path := absPath, name := name, lastUsedAt := some now }
      .ok (updated, { st with projects := setA st.projects id updated })
    | none =>
      let project : Project :=
        { id := id, path := absPath, name := name,
          createdAt := now, lastUsedAt := some now }
      .ok (project, { st with projects := setA st.projects id project })

/-! ### Reconciliation (`reconcileStateWithTmux`, `src/main.ts` 146-182).
The tmux tag channel is modelled as `env : String → String → Option String`
(session name → variable → value) and the live session list as
`live : List String`. -/

abbrev TagEnv := String → String → Option String

def discoveredPid (env : TagEnv) (name projectPath : String) : String :=
  (env name "RESUMER_PROJECT_ID").getD (computeProjectId projectPath)

def discoveredCreatedAt (env : TagEnv) (now name : String) : String :=
  (env name "RESUMER_CREATED_AT").getD now

/-- Source: `const cmd = cmdRaw && cmdRaw.trim().length ? cmdRaw : undefined;` -/
def discoveredCommand (env : TagEnv) (name : String) : Option String :=
  (env name "RESUMER_COMMAND").bind
    (fun c => if 0 < (jsTrim c).length then some c else none)

def mkDiscoveredRecord (env : TagEnv) (now name projectPath : String) :
    SessionRecord :=
  { name := name
    projectId := discoveredPid env name projectPath
    projectPath := projectPath
    createdAt := discoveredCreatedAt env now name
    command := discoveredCommand env name
    kind := if env name "RESUMER_MANAGED" == some "1" then .managed else .linked
    lastAttachedAt := none }

def mkDiscoveredProject (env : TagEnv) (now name projectPath : String) :
    Project :=
  let createdAt := discoveredCreatedAt env now name
  let projectName :=
    (((slashSplit projectPath).filter (fun s => s != "")).getLast?).getD projectPath
  { id := discoveredPid env name projectPath
    path := projectPath
    name := projectName
    createdAt := createdAt
    lastUsedAt := some createdAt }

def discoverOne (env : TagEnv) (now : String) (st : StateV1) (name : String) :
    StateV1 :=
  match getA st.sessions name with
  | some _ => st
  | none =>
    match env name "RESUMER_PROJECT_PATH" with
    | none => st
    | some projectPath =>
      let projectId := discoveredPid env name projectPath
      let project :=
        (getA st.projects projectId).getD (mkDiscoveredProject env now name projectPath)
      { st with
        projects := setA st.projects projectId project
        sessions := setA st.sessions name (mkDiscoveredRecord env now name projectPath) }

def pruneSessions (st : StateV1) (live : List String) : StateV1 :=
  { st with sessions := st.sessions.filter (fun p => live.contains p.1) }

def reconcileStateWithTmux (env : TagEnv) (now : String) (live : List String)
    (st : StateV1) : StateV1 :=
  live.foldl (discoverOne env now) (pruneSessions st live)

/-! ### Command matching and the open-path flow (`src/main.ts` 237-302) -/

def charsLeadWith : List Char → List Char → Bool
  | [], _ => true
  | _ :: _, [] => false
  | a :: pat, b :: text => a == b && charsLeadWith pat text

def charsContain (pat : List Char) : List Char → Bool
  | [] => charsLeadWith pat []
  | text@(_ :: rest) => charsLeadWith pat text || charsContain pat rest

/-- JS `hay.includes(needle)`. -/
def strIncludes (hay needle : String) : Bool :=
  charsContain needle.data hay.data

def sessionMatchesCommand (session : SessionRecord) (needle : String) : Bool :=
  strIncludes (charsToLower (session.command.getD "")) (charsToLower needle)

inductive OpenOutcome where
  | created (command : String)
  | attached (name : String)
  | cancelled
deriving DecidableEq, Repr

/-- The `args.command` branch of `handleOpenPath` plus `pickAndAttach`;
the interactive picker's selection is the `pickerChoice` argument. -/
def openPathCommandFlow (liveSessions : List SessionRecord) (command : String)
    (pickerChoice : Option String) : OpenOutcome :=
  match liveSessions.filter (fun s => sessionMatchesCommand s command) with
  | [] => .created command
  | [s] => .attached s.name
  | _ :: _ :: _ =>
    match pickerChoice with
    | some n => .attached n
    | none => .cancelled

/-! ### Link (`handleLink`, `src/main.ts` 428-456). Effects on the tmux
tag channel are returned as the list of key/value pairs written; the
conflict branch throws before any effect, so it returns an error and
nothing else. -/

def linkConflictMessage (st : StateV1) (name : String) (existing : SessionRecord) :
    String :=
  let existingProject :=
    ((getA st.projects existing.projectId).map (fun p => p.name)).getD existing.projectId
  "tmux session '" ++ name ++ "' is already associated with " ++ existingProject ++
    ". Re-run with --yes to move it."

def linkProceed (st : StateV1) (project : Project) (name : String)
    (existing : Option SessionRecord) (now : String) :
    List (String × String) × StateV1 :=
  let createdAt := (existing.map (fun ex => ex.createdAt)).getD now
    let wasManaged :=
      (match existing with
       | some ex => ex.kind == SessionKind.managed
       | none => false)
    let tags : List (String × String) :=
      [("RESUMER_MANAGED", if wasManaged then "1" else "0"),
       ("RESUMER_ASSOCIATED", "1"),
       ("RESUMER_PROJECT_ID", project.id),
       ("RESUMER_PROJECT_PATH", project.path),
       ("RESUMER_COMMAND", (existing.bind (fun ex => ex.command)).getD ""),
       ("RESUMER_CREATED_AT", createdAt)]
    let record : SessionRecord :=
      { name := name
        projectId := project.id
        projectPath := project.path
        createdAt := createdAt
        command := existing.bind (fun ex => ex.command)
        kind := if wasManaged then .managed else .linked
        lastAttachedAt := existing.bind (fun ex => ex.lastAttachedAt) }
  (tags, upsertSession st record)

def handleLink (st : StateV1) (project : Project) (name : String) (yes : Bool)
    (now : String) : Except String (List (String × String) × StateV1) :=
  match getA st.sessions name with
  | some ex =>
    if ex.projectId != project.id && !yes then
      .error (linkConflictMessage st name ex)
    else
      .ok (linkProceed st project name (some ex) now)
  | none => .ok (linkProceed st project name none now)

/-! ### Delete with an explicit `-s <name>` (`handleDelete`, `src/main.ts`
304-317). `killTmuxSession` is modelled through the tmux server: killing a
session that is not live fails, and this branch has no `try`/`catch`. -/

def killTmuxSession (live : List String) (name : String) : Except String Unit :=
  if live.contains name then .ok ()
  else .error ("tmux kill-session -t " ++ name ++ " failed")

def handleDeleteNamed (env : TagEnv) (now : String) (live : List String)
    (st : StateV1) (name : String) : Except String StateV1 :=
  let st1 := reconcileStateWithTmux env now live st
  match killTmuxSession live name with
  | .error e => .error e
  | .ok _ => .ok (removeSession st1 name)

/-! ### Persisted-state loading (`loadState` / `loadStateOrDefault`,
`src/state.ts` 19-46). Parsed JSON is modelled by `JValue`; reading the
state file and `JSON.parse` are external collaborators passed in. -/

inductive JValue where
  | null
  | bool (b : Bool)
  | num (n : Int)
  | str (s : String)
  | arr (items : List JValue)
  | obj (fields : List (String × JValue))

/-- JS `typeof` on a JSON value; `typeof null` is `"object"`. -/
def jsTypeof : JValue → String
  | .null => "object"
  | .bool _ => "boolean"
  | .num _ => "number"
  | .str _ => "string"
  | .arr _ => "object"
  | .obj _ => "object"

def jsTruthy : JValue → Bool
  | .null => false
  | .bool b => b
  | .num n => n != 0
  | .str s => s != ""
  | .arr _ => true
  | .obj _ => true

def jsGetField : JValue → String → Option JValue
  | .obj fields, k => getA fields k
  | _, _ => none

/-- JS `typeof` of a property read; a missing property is `undefined`. -/
def jsTypeofField (j : JValue) (k : String) : String :=
  match jsGetField j k with
  | none => "undefined"
  | some v => jsTypeof v

/-- JS strict equality of a property read against the number `1`
(`parsed.version !== 1` negated). -/
def isNumOne : Option JValue → Bool
  | some (.num n) => n == 1
  | _ => false

/-- The validation test of `loadState`: `parsed` is rejected iff
`!parsed || typeof parsed !== "object" || parsed.version !== 1 ||
typeof parsed.projects !== "object" || typeof parsed.sessions !== "object"`. -/
def validateState (parsed : JValue) : Bool :=
  !(!jsTruthy parsed ||
    jsTypeof parsed != "object" ||
    !isNumOne (jsGetField parsed "version") ||
    jsTypeofField parsed "projects" != "object" ||
    jsTypeofField parsed "sessions" != "object")

inductive LoadErr where
  | io (code : String)
  | parseFail
  | invalid
deriving DecidableEq, Repr

def loadState (readFile : Except String String)
    (parse : String → Option JValue) : Except LoadErr JValue :=
  match readFile with
  | .error code => .error (.io code)
  | .ok raw =>
    match parse raw with
    | none => .error .parseFail
    | some parsed =>
      if validateState parsed then .ok parsed else .error .invalid

def defaultState : JValue :=
  .obj [("version", .num 1), ("projects", .obj []), ("sessions", .obj [])]

/-- Function `loadStateOrDefault`: only an error carrying the code `ENOENT`
(a filesystem error for a missing file) is replaced by the default
document; every other failure is re-thrown. -/
def loadStateOrDefault (readFile : Except String String)
    (parse : String → Option JValue) : Except LoadErr JValue :=
  match loadState readFile parse with
  | .ok st => .ok st
  | .error (.io code) =>
    if code == "ENOENT" then .ok defaultState else .error (.io code)
  | .error e => .error e

/-! ### Spec-side predicates (for the refinement claims about load
validation, written from the spec's words, to be compared with
`validateState` above). -/

/-- A JSON string-valued required field. -/
def hasStrField (fields : List (String × JValue)) (k : String) : Bool :=
  match getA fields k with
  | some (.str _) => true
  | _ => false

/-- Spec data model: a `Project` entry carries `id`, `path`, `name`,
`createdAt`. -/
def specValidProject : JValue → Bool
  | .obj fields =>
    hasStrField fields "id" && hasStrField fields "path" &&
    hasStrField fields "name" && hasStrField fields "createdAt"
  | _ => false

/-- Spec data model: a `SessionRecord` entry carries `name`, `projectId`,
`projectPath`, `createdAt` and a `kind` of `managed` or `linked`. -/
def specValidSession : JValue → Bool
  | .obj fields =>
    hasStrField fields "name" && hasStrField fields "projectId" &&
    hasStrField fields "projectPath" && hasStrField fields "createdAt" &&
    (match getA fields "kind" with
     | some (.str s) => s == "managed" || s == "linked"
     | _ => false)
  | _ => false

/-- The claim's reading of load validation: the parsed value is an object
with `version` equal to `1` and object-valued `projects` and `sessions`
maps whose entries carry their required fields. -/
def specValidState : JValue → Bool
  | .obj fields =>
    isNumOne (getA fields "version") &&
    (match getA fields "projects" with
     | some (.obj ps) => ps.all (fun p => specValidProject p.2)
     | _ => false) &&
    (match getA fields "sessions" with
     | some (.obj ss) => ss.all (fun s => specValidSession s.2)
     | _ => false)
  | _ => false

/-- The amended, code-accurate validation condition: a truthy value of JS
type `"object"` whose `version` property is the number `1` and whose
`projects` and `sessions` properties both have JS type `"object"` (which
admits `null` and arrays); entries are not inspected. -/
def specShallowValidState : JValue → Bool
  | .obj fields =>
    isNumOne (getA fields "version") &&
    (match getA fields "projects" with
     | some v => jsTypeof v == "object"
     | none => false) &&
    (match getA fields "sessions" with
     | some v => jsTypeof v == "object"
     | none => false)
  | _ => false

/-! ## Lemmas about the map primitives -/

theorem getA_setA_self {α : Type} (m : AList α) (k : String) (v : α) :
    getA (setA m k v) k = some v := by
  induction m with
  | nil => simp [setA, getA]
  | cons p rest ih =>
    obtain ⟨k', v'⟩ := p
    by_cases h : k' = k
    · subst h
      simp [setA, getA]
    · simp [setA, getA, h, ih]

theorem getA_setA_ne {α : Type} (m : AList α) (k k' : String) (v : α)
    (h : k' ≠ k) : getA (setA m k v) k' = getA m k' := by
  induction m with
  | nil => simp [setA, getA, Ne.symm h]
  | cons p rest ih =>
    obtain ⟨k0, v0⟩ := p
    by_cases hk : k0 = k
    · subst hk
      simp [setA, getA, Ne.symm h]
    · simp [setA, getA, hk, ih]

theorem setA_of_getA_eq {α : Type} (m : AList α) (k : String) (v : α)
    (h : getA m k = some v) : setA m k v = m := by
  induction m with
  | nil => simp [getA] at h
  | cons p rest ih =>
    obtain ⟨k', v'⟩ := p
    by_cases hk : k' = k
    · subst hk
      simp [getA] at h
      simp [setA, h]
    · simp [getA, hk] at h
      simp [setA, hk, ih h]

theorem getA_length_setA {α : Type} (m : AList α) (k : String) (v : α)
    (h : (getA m k).isSome) : (setA m k v).length = m.length := by
  induction m with
  | nil => simp [getA] at h
  | cons p rest ih =>
    obtain ⟨k', v'⟩ := p
    by_cases hk : k' = k
    · subst hk
      simp [setA]
    · simp [getA, hk] at h
      simp [setA, hk, ih h]

/-- Filtering by a predicate on keys commutes with lookup. -/
theorem getA_filter_key {α : Type} (m : AList α) (f : String → Bool) (k : String) :
    getA (m.filter (fun p => f p.1)) k = if f k then getA m k else none := by
  induction m with
  | nil => simp [getA]
  | cons p rest ih =>
    obtain ⟨k', v'⟩ := p
    by_cases hk : k' = k
    · subst hk
      by_cases hf : f k' <;> simp [List.filter, getA, hf, ih]
    · by_cases hf : f k' <;> simp [List.filter, getA, hf, hk, ih]

theorem getA_isSome_of_mem {α : Type} (m : AList α) (k : String) (v : α)
    (h : (k, v) ∈ m) : (getA m k).isSome := by
  induction m with
  | nil => simp at h
  | cons p rest ih =>
    obtain ⟨k', v'⟩ := p
    rcases List.mem_cons.mp h with h1 | h2
    · obtain ⟨hk, _⟩ := Prod.mk.injEq .. ▸ h1
      simp_all [getA]
    · by_cases hk : k' = k
      · simp [getA, hk]
      · simp [getA, hk, ih h2]

/-! ## Lemmas about reconciliation -/

theorem discoverOne_cached (env : TagEnv) (now : String) (st : StateV1)
    (n : String) (h : (getA st.sessions n).isSome) :
    discoverOne env now st n = st := by
  cases hc : getA st.sessions n with
  | none => rw [hc] at h; simp at h
  | some r => simp [discoverOne, hc]

theorem discoverOne_untagged (env : TagEnv) (now : String) (st : StateV1)
    (n : String) (h : env n "RESUMER_PROJECT_PATH" = none) :
    discoverOne env now st n = st := by
  cases hc : getA st.sessions n with
  | none => simp [discoverOne, hc, h]
  | some r => simp [discoverOne, hc]

theorem discoverOne_skip (env : TagEnv) (now : String) (st : StateV1)
    (n : String)
    (h : (getA st.sessions n).isSome ∨ env n "RESUMER_PROJECT_PATH" = none) :
    discoverOne env now st n = st := by
  rcases h with h | h
  · exact discoverOne_cached env now st n h
  · exact discoverOne_untagged env now st n h

theorem discoverOne_sessions_mono (env : TagEnv) (now : String) (st : StateV1)
    (n k : String) (r : SessionRecord) (h : getA st.sessions k = some r) :
    getA (discoverOne env now st n).sessions k = some r := by
  cases hc : getA st.sessions n with
  | some r' => simp [discoverOne, hc, h]
  | none =>
    cases hp : env n "RESUMER_PROJECT_PATH" with
    | none => simp [discoverOne, hc, hp, h]
    | some pp =>
      have hkn : k ≠ n := by
        intro he
        rw [he, hc] at h
        exact Option.noConfusion h
      simp only [discoverOne, hc, hp]
      rw [getA_setA_ne _ _ _ _ hkn]
      exact h

theorem discoverOne_sessions_other (env : TagEnv) (now : String) (st : StateV1)
    (n k : String) (h : k ≠ n) :
    getA (discoverOne env now st n).sessions k = getA st.sessions k := by
  cases hc : getA st.sessions n with
  | some r' => simp [discoverOne, hc]
  | none =>
    cases hp : env n "RESUMER_PROJECT_PATH" with
    | none => simp [discoverOne, hc, hp]
    | some pp =>
      simp only [discoverOne, hc, hp]
      exact getA_setA_ne _ _ _ _ h

theorem discoverOne_projects_mono (env : TagEnv) (now : String) (st : StateV1)
    (n : String) (i : String) (p : Project) (h : getA st.projects i = some p) :
    getA (discoverOne env now st n).projects i = some p := by
  cases hc : getA st.sessions n with
  | some r' => simp [discoverOne, hc, h]
  | none =>
    cases hp : env n "RESUMER_PROJECT_PATH" with
    | none => simp [discoverOne, hc, hp, h]
    | some pp =>
      simp only [discoverOne, hc, hp]
      by_cases hi : i = discoveredPid env n pp
      · subst hi
        rw [h]
        simp only [Option.getD_some]
        rw [getA_setA_self]
      · rw [getA_setA_ne _ _ _ _ hi]
        exact h

theorem foldl_discover_sessions_mono (env : TagEnv) (now : String)
    (l : List String) (acc : StateV1) (k : String) (r : SessionRecord)
    (h : getA acc.sessions k = some r) :
    getA (l.foldl (discoverOne env now) acc).sessions k = some r := by
  induction l generalizing acc with
  | nil => exact h
  | cons n rest ih =>
    exact ih _ (discoverOne_sessions_mono env now acc n k r h)

theorem foldl_discover_projects_mono (env : TagEnv) (now : String)
    (l : List String) (acc : StateV1) (i : String) (p : Project)
    (h : getA acc.projects i = some p) :
    getA (l.foldl (discoverOne env now) acc).projects i = some p := by
  induction l generalizing acc with
  | nil => exact h
  | cons n rest ih =>
    exact ih _ (discoverOne_projects_mono env now acc n i p h)

theorem foldl_discover_sessions_other (env : TagEnv) (now : String)
    (l : List String) (acc : StateV1) (k : String) (h : k ∉ l) :
    getA (l.foldl (discoverOne env now) acc).sessions k = getA acc.sessions k := by
  induction l generalizing acc with
  | nil => rfl
  | cons n rest ih =>
    have hkn : k ≠ n := by
      intro he
      exact h (he ▸ List.mem_cons_self n rest)
    have hrest : k ∉ rest := fun hm => h (List.mem_cons_of_mem n hm)
    rw [List.foldl_cons, ih _ hrest, discoverOne_sessions_other env now acc n k hkn]

theorem foldl_discover_processed (env : TagEnv) (now : String)
    (l : List String) (acc : StateV1) (n : String) (h : n ∈ l) :
    env n "RESUMER_PROJECT_PATH" = none ∨
      (getA (l.foldl (discoverOne env now) acc).sessions n).isSome := by
  induction l generalizing acc with
  | nil => simp at h
  | cons m rest ih =>
    rcases List.mem_cons.mp h with he | hm
    · subst he
      cases hp : env n "RESUMER_PROJECT_PATH" with
      | none => exact Or.inl rfl
      | some pp =>
        refine Or.inr ?_
        cases hc : getA acc.sessions n with
        | some r =>
          have := foldl_discover_sessions_mono env now rest
            (discoverOne env now acc n) n r
            (by rw [discoverOne_cached env now acc n (by rw [hc]; rfl)]; exact hc)
          rw [List.foldl_cons, this]
          rfl
        | none =>
          have hset : getA (discoverOne env now acc n).sessions n
              = some (mkDiscoveredRecord env now n pp) := by
            simp only [discoverOne, hc, hp]
            exact getA_setA_self _ _ _
          have := foldl_discover_sessions_mono env now rest
            (discoverOne env now acc n) n _ hset
          rw [List.foldl_cons, this]
          rfl
    · rw [List.foldl_cons]
      exact ih _ hm

theorem foldl_congr_id {α β : Type} (f : α → β → α) (acc : α) (l : List β)
    (h : ∀ b ∈ l, f acc b = acc) : l.foldl f acc = acc := by
  induction l with
  | nil => rfl
  | cons b rest ih =>
    rw [List.foldl_cons, h b (List.mem_cons_self b rest)]
    exact ih (fun b' hb' => h b' (List.mem_cons_of_mem b hb'))

theorem reconcile_sessions_not_live (env : TagEnv) (now : String)
    (live : List String) (st : StateV1) (k : String) (h : k ∉ live) :
    getA (reconcileStateWithTmux env now live st).sessions k = none := by
  unfold reconcileStateWithTmux
  rw [foldl_discover_sessions_other env now live _ k h]
  show getA ((pruneSessions st live).sessions) k = none
  unfold pruneSessions
  simp only
  rw [getA_filter_key]
  have : live.contains k = false := by
    rw [List.contains_eq_any_beq]
    simp only [List.any_eq_false]
    intro a ha
    simp only [beq_iff_eq]
    intro he
    exact h (he ▸ ha)
  rw [this]
  simp

theorem contains_iff_mem (l : List String) (k : String) :
    l.contains k = true ↔ k ∈ l := by
  rw [List.contains_eq_any_beq]
  simp [List.any_eq_true, beq_iff_eq]

theorem pruneSessions_getA (st : StateV1) (live : List String) (k : String) :
    getA (pruneSessions st live).sessions k =
      if live.contains k then getA st.sessions k else none := by
  unfold pruneSessions
  simp only
  exact getA_filter_key st.sessions (fun k => live.contains k) k

/-- C1: Reconciliation is idempotent: with the live session set and every
session's tags unchanged between the two calls (the same `live` and `env`
arguments; the wall clock `now` may differ), the second run of
`reconcileStateWithTmux` returns the first run's document unchanged. -/
theorem C1_reconcile_idempotent (env : TagEnv) (now now' : String)
    (live : List String) (st : StateV1) :
    reconcileStateWithTmux env now' live (reconcileStateWithTmux env now live st)
      = reconcileStateWithTmux env now live st := by
  have hkeys : ∀ p ∈ (reconcileStateWithTmux env now live st).sessions,
      live.contains p.1 = true := by
    intro p hp
    by_contra hc
    have hnm : p.1 ∉ live := fun hm => hc ((contains_iff_mem live p.1).mpr hm)
    have h0 := reconcile_sessions_not_live env now live st p.1 hnm
    have h1 := getA_isSome_of_mem
      (reconcileStateWithTmux env now live st).sessions p.1 p.2 hp
    rw [h0] at h1
    simp at h1
  have hprune : pruneSessions (reconcileStateWithTmux env now live st) live
      = reconcileStateWithTmux env now live st := by
    unfold pruneSessions
    rw [List.filter_eq_self.mpr hkeys]
  show live.foldl (discoverOne env now')
      (pruneSessions (reconcileStateWithTmux env now live st) live) = _
  rw [hprune]
  apply foldl_congr_id
  intro n hn
  apply discoverOne_skip
  rcases foldl_discover_processed env now live (pruneSessions st live) n hn with h | h
  · exact Or.inr h
  · exact Or.inl h

/-- C2: Prune with project frame: after reconciliation every cached session
whose name is not live is gone from `sessions`; the pruning step leaves
`projects` untouched; no existing `Project` entry is removed or mutated by
the whole reconciliation; and cached records of still-live sessions are
kept unchanged. -/
theorem C2_prune_frame (env : TagEnv) (now : String) (live : List String)
    (st : StateV1) :
    (∀ n, n ∉ live →
        getA (reconcileStateWithTmux env now live st).sessions n = none) ∧
    (pruneSessions st live).projects = st.projects ∧
    (∀ i p, getA st.projects i = some p →
        getA (reconcileStateWithTmux env now live st).projects i = some p) ∧
    (∀ n r, getA st.sessions n = some r → n ∈ live →
        getA (reconcileStateWithTmux env now live st).sessions n = some r) := by
  refine ⟨?_, rfl, ?_, ?_⟩
  · intro n hn
    exact reconcile_sessions_not_live env now live st n hn
  · intro i p h
    exact foldl_discover_projects_mono env now live (pruneSessions st live) i p h
  · intro n r h hn
    apply foldl_discover_sessions_mono
    rw [pruneSessions_getA, (contains_iff_mem live n).mpr hn]
    simpa using h

theorem foldl_discover_none_at (env : TagEnv) (now : String) (l : List String)
    (acc : StateV1) (n : String) (hp : env n "RESUMER_PROJECT_PATH" = none)
    (h : getA acc.sessions n = none) :
    getA (l.foldl (discoverOne env now) acc).sessions n = none := by
  induction l generalizing acc with
  | nil => exact h
  | cons m rest ih =>
    rw [List.foldl_cons]
    apply ih
    by_cases hmn : m = n
    · subst hmn
      rw [discoverOne_untagged env now acc m hp]
      exact h
    · rw [discoverOne_sessions_other env now acc m n (fun he => hmn he.symm)]
      exact h

theorem foldl_discover_inserts (env : TagEnv) (now : String) (l : List String)
    (acc : StateV1) (n pp : String)
    (hp : env n "RESUMER_PROJECT_PATH" = some pp) (hn : n ∈ l)
    (hacc : getA acc.sessions n = none) :
    getA (l.foldl (discoverOne env now) acc).sessions n
      = some (mkDiscoveredRecord env now n pp) := by
  induction l generalizing acc with
  | nil => simp at hn
  | cons m rest ih =>
    rw [List.foldl_cons]
    by_cases hmn : m = n
    · subst hmn
      have hstep : getA (discoverOne env now acc m).sessions m
          = some (mkDiscoveredRecord env now m pp) := by
        simp only [discoverOne, hacc, hp]
        exact getA_setA_self _ _ _
      exact foldl_discover_sessions_mono env now rest _ m _ hstep
    · rcases List.mem_cons.mp hn with he | hm
      · exact absurd he.symm hmn
      · apply ih _ hm
        rw [discoverOne_sessions_other env now acc m n (fun he => hmn he.symm)]
        exact hacc

theorem foldl_discover_project_from (env : TagEnv) (now : String)
    (l : List String) (acc : StateV1) (n pp : String)
    (hp : env n "RESUMER_PROJECT_PATH" = some pp) (hn : n ∈ l)
    (hacc : getA acc.sessions n = none) :
    (getA (l.foldl (discoverOne env now) acc).projects
      (discoveredPid env n pp)).isSome := by
  induction l generalizing acc with
  | nil => simp at hn
  | cons m rest ih =>
    rw [List.foldl_cons]
    by_cases hmn : m = n
    · subst hmn
      have hstep : getA (discoverOne env now acc m).projects (discoveredPid env m pp)
          = some ((getA acc.projects (discoveredPid env m pp)).getD
              (mkDiscoveredProject env now m pp)) := by
        simp only [discoverOne, hacc, hp]
        exact getA_setA_self _ _ _
      rw [foldl_discover_projects_mono env now rest _ _ _ hstep]
      rfl
    · rcases List.mem_cons.mp hn with he | hm
      · exact absurd he.symm hmn
      · apply ih _ hm
        rw [discoverOne_sessions_other env now acc m n (fun he => hmn he.symm)]
        exact hacc

theorem foldl_two_phase {α β : Type} [DecidableEq β] (f : α → β → α)
    (l : List β) (A B : α) (n : β) (hAB : f A n = B)
    (hA : ∀ m ∈ l, m ≠ n → f A m = A) (hB : ∀ m ∈ l, f B m = B) :
    l.foldl f A = (if n ∈ l then B else A) := by
  induction l with
  | nil => simp
  | cons m rest ih =>
    rw [List.foldl_cons]
    by_cases hmn : m = n
    · subst hmn
      rw [hAB]
      rw [foldl_congr_id f B rest
        (fun b hb => hB b (List.mem_cons_of_mem m hb))]
      simp [List.mem_cons]
    · rw [hA m (List.mem_cons_self m rest) hmn]
      rw [ih (fun b hb hbn => hA b (List.mem_cons_of_mem m hb) hbn)
             (fun b hb => hB b (List.mem_cons_of_mem m hb))]
      have hnm : n ≠ m := fun he => hmn he.symm
      by_cases hn : n ∈ rest
      · simp [hn, List.mem_cons]
      · simp [hn, List.mem_cons, hnm]

/-- C3: Discovery: a live session that is not cached is skipped when it has
no project-path tag; otherwise a `SessionRecord` derived from its tags is
inserted (with `kind = managed` exactly when the managed-flag tag is "1"),
a `Project` for its (reused or recomputed) project id exists afterwards,
and when no such `Project` existed (and no other live session triggers a
discovery), the freshly synthesized `Project` (name = basename of the
tagged path, timestamps from the created-at tag or current time) is the
one inserted. -/
theorem C3_discovery (env : TagEnv) (now : String) (live : List String)
    (st : StateV1) (n : String)
    (h1 : getA st.sessions n = none) (h2 : n ∈ live) :
    (env n "RESUMER_PROJECT_PATH" = none →
      getA (reconcileStateWithTmux env now live st).sessions n = none) ∧
    (∀ pp, env n "RESUMER_PROJECT_PATH" = some pp →
      getA (reconcileStateWithTmux env now live st).sessions n
          = some (mkDiscoveredRecord env now n pp) ∧
      (mkDiscoveredRecord env now n pp).kind
          = (if env n "RESUMER_MANAGED" == some "1" then SessionKind.managed
             else SessionKind.linked) ∧
      (getA (reconcileStateWithTmux env now live st).projects
          (discoveredPid env n pp)).isSome ∧
      (getA st.projects (discoveredPid env n pp) = none →
        (∀ m, m ∈ live → m ≠ n →
          (getA st.sessions m).isSome ∨ env m "RESUMER_PROJECT_PATH" = none) →
        getA (reconcileStateWithTmux env now live st).projects
            (discoveredPid env n pp)
          = some (mkDiscoveredProject env now n pp))) := by
  have hpruned : getA (pruneSessions st live).sessions n = none := by
    rw [pruneSessions_getA, h1]
    simp
  constructor
  · intro hp
    exact foldl_discover_none_at env now live (pruneSessions st live) n hp hpruned
  · intro pp hp
    refine ⟨?_, rfl, ?_, ?_⟩
    · exact foldl_discover_inserts env now live (pruneSessions st live) n pp hp h2 hpruned
    · exact foldl_discover_project_from env now live (pruneSessions st live) n pp hp h2 hpruned
    · intro hnone hunique
      have hskipA : ∀ m ∈ live, m ≠ n →
          discoverOne env now (pruneSessions st live) m = pruneSessions st live := by
        intro m hm hmn
        apply discoverOne_skip
        rcases hunique m hm hmn with hs | hu
        · left
          rw [pruneSessions_getA, (contains_iff_mem live m).mpr hm]
          exact hs
        · exact Or.inr hu
      have hskipB : ∀ m ∈ live,
          discoverOne env now (discoverOne env now (pruneSessions st live) n) m
            = discoverOne env now (pruneSessions st live) n := by
        intro m hm
        by_cases hmn : m = n
        · subst hmn
          apply discoverOne_cached
          have : getA (discoverOne env now (pruneSessions st live) m).sessions m
              = some (mkDiscoveredRecord env now m pp) := by
            simp only [discoverOne, hpruned, hp]
            exact getA_setA_self _ _ _
          rw [this]
          rfl
        · apply discoverOne_skip
          rcases hunique m hm hmn with hs | hu
          · left
            have hother := discoverOne_sessions_other env now
              (pruneSessions st live) n m (fun he => hmn he)
            rw [hother, pruneSessions_getA, (contains_iff_mem live m).mpr hm]
            exact hs
          · exact Or.inr hu
      have hfold := foldl_two_phase (discoverOne env now) live
        (pruneSessions st live) (discoverOne env now (pruneSessions st live) n)
        n rfl hskipA hskipB
      show getA (live.foldl (discoverOne env now) (pruneSessions st live)).projects
          (discoveredPid env n pp) = _
      rw [hfold, if_pos h2]
      simp only [discoverOne, hpruned, hp]
      have hproj : getA (pruneSessions st live).projects (discoveredPid env n pp)
          = none := hnone
      rw [hproj]
      simp only [Option.getD_none]
      exact getA_setA_self _ _ _

/-! ## Referential integrity -/

/-- Every cached session record's `projectId` resolves to a `Project` in
the same document. -/
def IntegrityInv (s : StateV1) : Prop :=
  ∀ n r, getA s.sessions n = some r → (getA s.projects r.projectId).isSome

theorem discoverOne_integrity (env : TagEnv) (now : String) (s : StateV1)
    (m : String) (h : IntegrityInv s) : IntegrityInv (discoverOne env now s m) := by
  cases hc : getA s.sessions m with
  | some r' => rw [discoverOne_cached env now s m (by rw [hc]; rfl)]; exact h
  | none =>
    cases hp : env m "RESUMER_PROJECT_PATH" with
    | none => rw [discoverOne_untagged env now s m hp]; exact h
    | some pp =>
      intro n r hr
      simp only [discoverOne, hc, hp] at hr ⊢
      by_cases hnm : n = m
      · subst hnm
        rw [getA_setA_self] at hr
        injection hr with hr
        subst hr
        show (getA (setA s.projects (discoveredPid env n pp) _)
          (mkDiscoveredRecord env now n pp).projectId).isSome
        have : (mkDiscoveredRecord env now n pp).projectId
            = discoveredPid env n pp := rfl
        rw [this, getA_setA_self]
        rfl
      · rw [getA_setA_ne _ _ _ _ hnm] at hr
        have hold := h n r hr
        by_cases hpid : r.projectId = discoveredPid env m pp
        · rw [hpid, getA_setA_self]
          rfl
        · rw [getA_setA_ne _ _ _ _ hpid]
          exact hold

theorem pruneSessions_integrity (st : StateV1) (live : List String)
    (h : IntegrityInv st) : IntegrityInv (pruneSessions st live) := by
  intro n r hr
  rw [pruneSessions_getA] at hr
  by_cases hc : live.contains n
  · rw [if_pos hc] at hr
    exact h n r hr
  · rw [if_neg hc] at hr
    exact Option.noConfusion hr

/-- C9 (amended): reconciliation preserves referential integrity — if every
cached `SessionRecord.projectId` of the input document resolves to a
`Project` in it, the same holds of the output document, and discovery
establishes it for every newly inserted record. -/
theorem C9_integrity_preserved (env : TagEnv) (now : String)
    (live : List String) (st : StateV1) (hinv : IntegrityInv st) :
    IntegrityInv (reconcileStateWithTmux env now live st) := by
  show IntegrityInv (live.foldl (discoverOne env now) (pruneSessions st live))
  have base := pruneSessions_integrity st live hinv
  generalize pruneSessions st live = acc at base
  induction live generalizing acc with
  | nil => exact base
  | cons m rest ih =>
    rw [List.foldl_cons]
    exact ih _ (discoverOne_integrity env now acc m base)

/-! ## Concrete documents and tag environments used as witnesses -/

def envNone : TagEnv := fun _ _ => none

/-- A tag environment in which only the live session `stray` carries
resumer tags, pointing at project path `/tmp/y`. -/
def envStray : TagEnv := fun n k =>
  if n == "stray" then
    if k == "RESUMER_PROJECT_PATH" then some "/tmp/y"
    else if k == "RESUMER_PROJECT_ID" then some "pidY"
    else if k == "RESUMER_MANAGED" then some "1"
    else if k == "RESUMER_CREATED_AT" then some "2024-01-02T00:00:00Z"
    else none
  else none

def projA : Project :=
  { id := "pidA", path := "/tmp/a", name := "a",
    createdAt := "2024-01-01T00:00:00Z", lastUsedAt := some "2024-01-01T00:00:00Z" }

def recGone : SessionRecord :=
  { name := "ns_foo_abc123", projectId := "pidA", projectPath := "/tmp/a",
    createdAt := "2024-01-01T00:00:00Z", command := none,
    kind := .managed, lastAttachedAt := none }

def recKeep : SessionRecord :=
  { name := "keep1", projectId := "pidA", projectPath := "/tmp/a",
    createdAt := "2024-01-01T00:00:00Z", command := some "vim notes",
    kind := .managed, lastAttachedAt := some "2024-01-03T00:00:00Z" }

def stW : StateV1 :=
  { version := 1
    projects := [("pidA", projA)]
    sessions := [("ns_foo_abc123", recGone), ("keep1", recKeep)] }

def stEmpty : StateV1 := { version := 1, projects := [], sessions := [] }

def recDangling : SessionRecord :=
  { name := "s", projectId := "zz", projectPath := "/tmp/z",
    createdAt := "2024-01-01T00:00:00Z", command := none,
    kind := .linked, lastAttachedAt := none }

def stDangling : StateV1 :=
  { version := 1, projects := [], sessions := [("s", recDangling)] }

/-- C9 counterexample: on an input document whose cached (and still live)
session points at a project id with no `Project` entry, reconciliation
completes with the dangling reference still present, so the invariant
does not hold for every input document. -/
theorem C9_counterexample :
    getA (reconcileStateWithTmux envNone "T0" ["s"] stDangling).sessions "s"
        = some recDangling ∧
    getA (reconcileStateWithTmux envNone "T0" ["s"] stDangling).projects
        recDangling.projectId = none := by
  constructor <;> rfl

theorem C9_integrity_witness :
    (getA (reconcileStateWithTmux envStray "T9" ["stray"] stEmpty).projects
      (mkDiscoveredRecord envStray "T9" "stray" "/tmp/y").projectId).isSome := by
  refine C9_integrity_preserved envStray "T9" ["stray"] stEmpty ?_ "stray"
    (mkDiscoveredRecord envStray "T9" "stray" "/tmp/y") ?_
  · intro n r h
    simp [stEmpty, getA] at h
  · rfl

theorem C2_prune_frame_witness :
    getA (reconcileStateWithTmux envStray "T9" ["keep1", "stray"] stW).sessions
        "ns_foo_abc123" = none ∧
    getA (reconcileStateWithTmux envStray "T9" ["keep1", "stray"] stW).projects
        "pidA" = some projA ∧
    getA (reconcileStateWithTmux envStray "T9" ["keep1", "stray"] stW).sessions
        "keep1" = some recKeep := by
  have h := C2_prune_frame envStray "T9" ["keep1", "stray"] stW
  exact ⟨h.1 "ns_foo_abc123" (by decide), h.2.2.1 "pidA" projA (by rfl),
    h.2.2.2 "keep1" recKeep (by rfl) (by decide)⟩

theorem C3_discovery_witness :
    getA (reconcileStateWithTmux envStray "T9" ["stray"] stEmpty).sessions "stray"
        = some (mkDiscoveredRecord envStray "T9" "stray" "/tmp/y") ∧
    (mkDiscoveredRecord envStray "T9" "stray" "/tmp/y").kind = SessionKind.managed ∧
    getA (reconcileStateWithTmux envStray "T9" ["stray"] stEmpty).projects
        (discoveredPid envStray "stray" "/tmp/y")
      = some (mkDiscoveredProject envStray "T9" "stray" "/tmp/y") := by
  have h := C3_discovery envStray "T9" ["stray"] stEmpty "stray" rfl
    (by decide)
  have hb := h.2 "/tmp/y" rfl
  refine ⟨hb.1, ?_, hb.2.2.2 rfl ?_⟩
  · rw [hb.2.1]
    rfl
  · intro m hm hne
    exact absurd (List.mem_singleton.mp hm) hne

/-! ## Project identity across path spellings -/

/-- A filesystem in which every path exists, is a directory, and contains
no symlinks (realpath is the identity). -/
def fsPlain : Fs :=
  { pathExists := fun _ => true, isDir := fun _ => true, realpath := fun p => p }

/-- C4 counterexample: the spellings `/tmp/x` and `/tmp/./x` canonicalize
(through the program's own `resolveProjectPath`) to the same real
directory `/tmp/x`, yet `computeProjectId` applied to the two raw
spellings yields different ids — the hash itself does not canonicalize. -/
theorem C4_counterexample :
    resolveProjectPath fsPlain "/home/u" "/tmp/x" "/" = Except.ok "/tmp/x" ∧
    resolveProjectPath fsPlain "/home/u" "/tmp/./x" "/" = Except.ok "/tmp/x" ∧
    computeProjectId "/tmp/x" ≠ computeProjectId "/tmp/./x" := by
  refine ⟨rfl, rfl, ?_⟩
  decide

/-- C4 (amended): `computeProjectId` is applied to the canonicalized path:
registration canonicalizes through `resolveProjectPath` before hashing, so
registering two spellings that resolve to the same real directory touches
the same project id and leaves a single `Project` entry (no duplicate). -/
theorem C4_amended_canonical_registration (fs : Fs) (home : String)
    (st : StateV1) (p1 p2 cwd now1 now2 r : String) (pr1 : Project)
    (st1 : StateV1)
    (h1 : resolveProjectPath fs home p1 cwd = Except.ok r)
    (h2 : resolveProjectPath fs home p2 cwd = Except.ok r)
    (he : normalizeAndEnsureProject fs home st p1 cwd now1 = Except.ok (pr1, st1)) :
    ∃ pr2 st2,
      normalizeAndEnsureProject fs home st1 p2 cwd now2 = Except.ok (pr2, st2) ∧
      pr2.id = pr1.id ∧
      st2.projects.length = st1.projects.length := by
  have hget : getA st1.projects (computeProjectId r) = some pr1 := by
    unfold normalizeAndEnsureProject at he
    dsimp only at he
    split at he
    · exact Except.noConfusion he
    · next absPath heq =>
      rw [h1] at heq
      injection heq with habs
      subst habs
      split at he
      · next existing hg =>
        injection he with hpair
        injection hpair with hpr hst
        rw [← hst, ← hpr]
        exact getA_setA_self _ _ _
      · next hg =>
        injection he with hpair
        injection hpair with hpr hst
        rw [← hst, ← hpr]
        exact getA_setA_self _ _ _
  have hlen : ∀ pr2 : Project,
      (setA st1.projects (computeProjectId r) pr2).length = st1.projects.length :=
    fun pr2 => getA_length_setA st1.projects _ pr2 (by rw [hget]; rfl)
  unfold normalizeAndEnsureProject
  rw [h2]
  simp only [hget]
  exact ⟨_, _, rfl, rfl, hlen _⟩

theorem C4_amended_witness :
    ∃ pr2 st2,
      normalizeAndEnsureProject fsPlain "/home/u"
          { version := 1
            projects := [("e7ad2368a9",
              { id := "e7ad2368a9", path := "/tmp/x", name := "x",
                createdAt := "T1", lastUsedAt := some "T1" })]
            sessions := [] }
          "/tmp/./x" "/" "T2" = Except.ok (pr2, st2) ∧
      pr2.id = "e7ad2368a9" ∧
      st2.projects.length = 1 := by
  exact C4_amended_canonical_registration fsPlain "/home/u" stEmpty
    "/tmp/x" "/tmp/./x" "/" "T1" "T2" "/tmp/x"
    { id := "e7ad2368a9", path := "/tmp/x", name := "x",
      createdAt := "T1", lastUsedAt := some "T1" }
    { version := 1
      projects := [("e7ad2368a9",
        { id := "e7ad2368a9", path := "/tmp/x", name := "x",
          createdAt := "T1", lastUsedAt := some "T1" })]
      sessions := [] }
    rfl rfl rfl

/-! ## Link conflict resolution -/

/-- C5: Link conflict resolution: when the target session is cached under a
different project and `yes` (override) is false, `handleLink` fails with
the conflict error before writing any tag or record; with override (or no
conflicting association) the written tags and the upserted record both
point at the new project while the session's original `createdAt`,
`command` and managed/linked `kind` are preserved; an uncached session
links without conflict. -/
theorem C5_link_conflict (st : StateV1) (project : Project) (name now : String) :
    (∀ ex, getA st.sessions name = some ex → ex.projectId ≠ project.id →
      handleLink st project name false now
        = Except.error (linkConflictMessage st name ex)) ∧
    (∀ ex yes, getA st.sessions name = some ex →
      (yes = true ∨ ex.projectId = project.id) →
      ∃ tags st2, handleLink st project name yes now = Except.ok (tags, st2) ∧
        getA tags "RESUMER_PROJECT_ID" = some project.id ∧
        getA tags "RESUMER_PROJECT_PATH" = some project.path ∧
        getA st2.sessions name = some
          { name := name, projectId := project.id, projectPath := project.path,
            createdAt := ex.createdAt, command := ex.command, kind := ex.kind,
            lastAttachedAt := ex.lastAttachedAt }) ∧
    (∀ yes, getA st.sessions name = none →
      handleLink st project name yes now
        = Except.ok (linkProceed st project name none now)) := by
  refine ⟨?_, ?_, ?_⟩
  · intro ex hex hne
    unfold handleLink
    rw [hex]
    simp [hne]
  · intro ex yes hex hor
    unfold handleLink
    rw [hex]
    have hcond : (ex.projectId != project.id && !yes) = false := by
      rcases hor with h | h
      · subst h
        simp
      · simp [h]
    simp only [hcond, Bool.false_eq_true, if_false]
    refine ⟨_, _, rfl, rfl, rfl, ?_⟩
    show getA (setA st.sessions name _) name = _
    rw [getA_setA_self]
    have hkind : (if ex.kind == SessionKind.managed then SessionKind.managed
        else SessionKind.linked) = ex.kind := by
      cases ex.kind <;> rfl
    simp only [linkProceed, hkind]
    rfl
  · intro yes hnone
    unfold handleLink
    rw [hnone]

def projB : Project :=
  { id := "pidB", path := "/tmp/b", name := "b",
    createdAt := "2024-02-01T00:00:00Z", lastUsedAt := some "2024-02-01T00:00:00Z" }

theorem C5_link_conflict_witness :
    handleLink stW projB "keep1" false "T9"
      = Except.error (linkConflictMessage stW "keep1" recKeep) ∧
    ∃ tags st2, handleLink stW projB "keep1" true "T9" = Except.ok (tags, st2) ∧
      getA tags "RESUMER_PROJECT_ID" = some "pidB" ∧
      getA tags "RESUMER_PROJECT_PATH" = some "/tmp/b" ∧
      getA st2.sessions "keep1" = some
        { name := "keep1", projectId := "pidB", projectPath := "/tmp/b",
          createdAt := recKeep.createdAt, command := recKeep.command,
          kind := recKeep.kind, lastAttachedAt := recKeep.lastAttachedAt } := by
  have h := C5_link_conflict stW projB "keep1" "T9"
  exact ⟨h.1 recKeep rfl (by decide), h.2.1 recKeep true rfl (Or.inl rfl)⟩

/-! ## Delete with an explicit session name -/

/-- C6: contrary to the best-effort policy, the explicit `-s <name>` delete
branch has no `try`/`catch` around `killTmuxSession`: deleting a session
whose underlying tmux session is already dead surfaces the kill failure
as an error, and the branch's own record removal and persist never run. -/
theorem C6_delete_kill_failure_surfaces :
    handleDeleteNamed envNone "T9" [] stW "ns_foo_abc123"
      = Except.error ("tmux kill-session -t " ++ "ns_foo_abc123" ++ " failed") := by
  rfl

/-! ## Command matching -/

theorem charsLeadWith_iff (pat : List Char) :
    ∀ text, charsLeadWith pat text = true ↔ ∃ r, text = pat ++ r := by
  induction pat with
  | nil =>
    intro text
    simp [charsLeadWith]
  | cons a pat ih =>
    intro text
    cases text with
    | nil =>
      show charsLeadWith (a :: pat) [] = true ↔ _
      simp [charsLeadWith]
    | cons b text2 =>
      show (a == b && charsLeadWith pat text2) = true ↔ _
      simp only [Bool.and_eq_true, beq_iff_eq, ih text2]
      constructor
      · rintro ⟨rfl, r, rfl⟩
        exact ⟨r, rfl⟩
      · rintro ⟨r, hr⟩
        injection hr with h1 h2
        exact ⟨h1.symm, r, h2⟩

theorem charsContain_iff (pat : List Char) :
    ∀ text, charsContain pat text = true ↔ ∃ l r, text = l ++ pat ++ r := by
  intro text
  induction text with
  | nil =>
    show charsLeadWith pat [] = true ↔ _
    rw [charsLeadWith_iff]
    constructor
    · rintro ⟨r, hr⟩
      exact ⟨[], r, by simpa using hr⟩
    · rintro ⟨l, r, hr⟩
      have h0 : l ++ (pat ++ r) = [] := by simpa [List.append_assoc] using hr.symm
      rcases List.append_eq_nil.mp h0 with ⟨hl, hpr⟩
      exact ⟨r, hpr.symm⟩
  | cons b text2 ih =>
    show (charsLeadWith pat (b :: text2) || charsContain pat text2) = true ↔ _
    simp only [Bool.or_eq_true, charsLeadWith_iff, ih]
    constructor
    · rintro (⟨r, hr⟩ | ⟨l, r, hr⟩)
      · exact ⟨[], r, by simpa using hr⟩
      · exact ⟨b :: l, r, by simp [hr]⟩
    · rintro ⟨l, r, hr⟩
      cases l with
      | nil => exact Or.inl ⟨r, by simpa using hr⟩
      | cons x l2 =>
        injection hr with h1 h2
        exact Or.inr ⟨l2, r, h2⟩

theorem sessionMatchesCommand_iff (s : SessionRecord) (cmd : String) :
    sessionMatchesCommand s cmd = true ↔
      ∃ l r, (charsToLower (s.command.getD "")).data
        = l ++ (charsToLower cmd).data ++ r :=
  charsContain_iff (charsToLower cmd).data (charsToLower (s.command.getD "")).data

/-- C7: Command matching: for the reconciled sessions of a project and a
non-empty fragment, the match set is exactly the sessions whose stored
`command` contains the fragment as a case-insensitive substring; zero
matches create a new session carrying that command, one match attaches it
directly, several matches delegate to the picker whose choice is attached
(or nothing happens on cancel). -/
theorem C7_command_matching (sessions : List SessionRecord) (cmd : String)
    (choice : Option String) (hne : cmd ≠ "") :
    (∀ s, s ∈ sessions.filter (fun s => sessionMatchesCommand s cmd) ↔
      s ∈ sessions ∧ ∃ l r, (charsToLower (s.command.getD "")).data
        = l ++ (charsToLower cmd).data ++ r) ∧
    (sessions.filter (fun s => sessionMatchesCommand s cmd) = [] →
      openPathCommandFlow sessions cmd choice = .created cmd) ∧
    (∀ s, sessions.filter (fun s => sessionMatchesCommand s cmd) = [s] →
      openPathCommandFlow sessions cmd choice = .attached s.name) ∧
    (∀ s1 s2 rest,
      sessions.filter (fun s => sessionMatchesCommand s cmd) = s1 :: s2 :: rest →
      (∀ n, choice = some n →
        openPathCommandFlow sessions cmd choice = .attached n) ∧
      (choice = none → openPathCommandFlow sessions cmd choice = .cancelled)) := by
  refine ⟨?_, ?_, ?_, ?_⟩
  · intro s
    rw [List.mem_filter, sessionMatchesCommand_iff]
  · intro hf
    unfold openPathCommandFlow
    rw [hf]
  · intro s hf
    unfold openPathCommandFlow
    rw [hf]
  · intro s1 s2 rest hf
    constructor
    · intro n hn
      unfold openPathCommandFlow
      rw [hf, hn]
    · intro hn
      unfold openPathCommandFlow
      rw [hf, hn]

theorem C7_command_matching_witness :
    recKeep ∈ [recGone, recKeep].filter (fun s => sessionMatchesCommand s "VIM") ∧
    openPathCommandFlow [recGone, recKeep] "VIM" none
      = OpenOutcome.attached "keep1" ∧
    openPathCommandFlow [recGone, recKeep] "htop" none
      = OpenOutcome.created "htop" := by
  have h := C7_command_matching [recGone, recKeep] "VIM" none (by decide)
  have h2 := C7_command_matching [recGone, recKeep] "htop" none (by decide)
  refine ⟨?_, ?_, ?_⟩
  · exact (h.1 recKeep).mpr ⟨by decide, [], " notes".data, by decide⟩
  · exact h.2.2.1 recKeep (by decide)
  · exact h2.2.1 (by decide)

/-! ## Load validation -/

theorem validateState_eq_shallow (j : JValue) :
    validateState j = specShallowValidState j := by
  cases j with
  | null => rfl
  | bool b => cases b <;> rfl
  | num n =>
    show (!(!jsTruthy (JValue.num n) || _ || _ || _ || _)) = false
    simp [jsTruthy, jsTypeof]
  | str s =>
    show (!(!jsTruthy (JValue.str s) || _ || _ || _ || _)) = false
    simp [jsTruthy, jsTypeof]
  | arr items => rfl
  | obj fields =>
    simp only [validateState, specShallowValidState, jsTruthy, jsGetField,
      jsTypeofField]
    cases hv : getA fields "version" with
    | none => simp [isNumOne, jsTypeof]
    | some v =>
      cases hp : getA fields "projects" with
      | none => simp [jsTypeof]
      | some vp =>
        cases hs : getA fields "sessions" with
        | none => simp [jsTypeof]
        | some vs =>
          cases hb : isNumOne (some v) <;> cases vp <;> cases vs <;>
            simp [jsTypeof, hb]

/-- C8 counterexample: a persisted document whose `projects` map contains
an entry that is not a valid `Project` object (it lacks every required
field) still loads without any validation error, so loading does not fail
whenever an entry's required fields are missing. -/
theorem C8_counterexample :
    loadState (Except.ok "raw")
        (fun _ => some (JValue.obj
          [("version", JValue.num 1),
           ("projects", JValue.obj [("a", JValue.num 5)]),
           ("sessions", JValue.obj [])]))
      = Except.ok (JValue.obj
          [("version", JValue.num 1),
           ("projects", JValue.obj [("a", JValue.num 5)]),
           ("sessions", JValue.obj [])]) ∧
    specValidState (JValue.obj
      [("version", JValue.num 1),
       ("projects", JValue.obj [("a", JValue.num 5)]),
       ("sessions", JValue.obj [])]) = false := by
  constructor <;> rfl

/-- C8 (amended): load validation is shallow: with the file read and parsed,
`loadState` returns the parsed document exactly when it is an object whose
`version` property is the number 1 and whose `projects` and `sessions`
properties have JS type "object" (a check that `null` and arrays also
pass); the fields of individual `Project`/`SessionRecord` entries are
never inspected, and any other shape is a hard `invalid` error, never a
repair. -/
theorem C8_shallow_validation (raw : String) (parse : String → Option JValue)
    (j : JValue) (hp : parse raw = some j) :
    (loadState (Except.ok raw) parse = Except.ok j ↔
      specShallowValidState j = true) ∧
    (loadState (Except.ok raw) parse = Except.ok j ∨
      loadState (Except.ok raw) parse = Except.error LoadErr.invalid) := by
  have hload : loadState (Except.ok raw) parse
      = if validateState j then Except.ok j else Except.error LoadErr.invalid := by
    unfold loadState
    dsimp only
    rw [hp]
  constructor
  · rw [hload, ← validateState_eq_shallow]
    cases hv : validateState j with
    | true => simp
    | false => simp
  · rw [hload]
    cases validateState j with
    | true => exact Or.inl (by simp)
    | false => exact Or.inr (by simp)

theorem C8_shallow_validation_witness :
    loadState (Except.ok "doc") (fun _ => some defaultState)
      = Except.ok defaultState ∧
    loadState (Except.ok "doc")
        (fun _ => some (JValue.obj [("version", JValue.num 2)]))
      = Except.error LoadErr.invalid := by
  constructor
  · exact (C8_shallow_validation "doc" (fun _ => some defaultState)
      defaultState rfl).1.mpr rfl
  · have h := (C8_shallow_validation "doc"
      (fun _ => some (JValue.obj [("version", JValue.num 2)]))
      (JValue.obj [("version", JValue.num 2)]) rfl)
    rcases h.2 with hok | herr
    · exact absurd (h.1.mp hok) (by decide)
    · exact herr

/-- C10: loading the state when the state file is missing (an `ENOENT`
read error) yields the default empty document instead of failing, while
every other load failure — a non-`ENOENT` filesystem error, a JSON parse
error, or a schema validation failure — propagates to the caller. -/
theorem C10_load_or_default (parse : String → Option JValue) :
    loadStateOrDefault (Except.error "ENOENT") parse = Except.ok defaultState ∧
    (∀ code, code ≠ "ENOENT" →
      loadStateOrDefault (Except.error code) parse
        = Except.error (LoadErr.io code)) ∧
    (∀ raw, parse raw = none →
      loadStateOrDefault (Except.ok raw) parse = Except.error LoadErr.parseFail) ∧
    (∀ raw j, parse raw = some j → validateState j = false →
      loadStateOrDefault (Except.ok raw) parse = Except.error LoadErr.invalid) := by
  refine ⟨rfl, ?_, ?_, ?_⟩
  · intro code hc
    unfold loadStateOrDefault loadState
    have : (code == "ENOENT") = false := by
      simp [hc]
    simp [this]
  · intro raw hr
    unfold loadStateOrDefault loadState
    dsimp only
    rw [hr]
  · intro raw j hj hv
    unfold loadStateOrDefault loadState
    dsimp only
    rw [hj]
    simp [hv]

theorem C10_load_or_default_witness :
    loadStateOrDefault (Except.error "ENOENT") (fun _ => none)
      = Except.ok defaultState ∧
    loadStateOrDefault (Except.error "EACCES") (fun _ => none)
      = Except.error (LoadErr.io "EACCES") ∧
    loadStateOrDefault (Except.ok "garbage") (fun _ => none)
      = Except.error LoadErr.parseFail ∧
    loadStateOrDefault (Except.ok "null") (fun _ => some JValue.null)
      = Except.error LoadErr.invalid := by
  have h := C10_load_or_default (fun _ => none)
  have h2 := C10_load_or_default (fun _ => some JValue.null)
  exact ⟨h.1, h.2.1 "EACCES" (by decide), h.2.2.1 "garbage" rfl,
    h2.2.2.2 "null" JValue.null rfl rfl⟩

end Resumer
